import Mathlib

/-!
Verification of the Fll-Project authentication gateway and companion tooling.

The development embeds, as executable Lean definitions:
* the frontend permission helpers (`hasPermission`, `canAccess`);
* the tag-normalization routines (React `ArtifactModal` tag input, and the
  Rust Tauri `normalize_tags` command);
* the Ollama readiness-polling loop of the setup script;
* the shutdown cleanup of the `run.ps1` launcher;
* the credential store and `/search_user` verification contract of the
  login backend (modelled from the specification where the Rust
  implementation files are not part of the sources).
-/

namespace FllProject

/-! ## Frontend permissions (`utils/permissions.ts`) -/

/-- The `UserRole` union of `types/index.ts`:
`'admin' | 'user' | 'field' | 'onsite'`. -/
inductive UserRole where
  | admin
  | user
  | field
  | onsite
deriving DecidableEq, Repr

open UserRole in
/-- The `permissions` record literal inside `canAccess`:
feature string to the list of roles allowed to use it; unknown features
map to the empty list (`permissions[feature] || []`). -/
def featurePermissions (feature : String) : List UserRole :=
  if feature = "upload" then [user, field, admin]
  else if feature = "gallery" then [user, field, onsite, admin]
  else if feature = "edit" then [onsite, admin]
  else if feature = "verify" then [onsite, admin]
  else if feature = "user-management" then [admin]
  else if feature = "audit-logs" then [admin]
  else []

/-- Embedding of `hasPermission(userRole, requiredRole)` from `utils/permissions.ts`.
`userRole` is `UserRole | undefined` (embedded as `Option`); `requiredRole`
is `UserRole | UserRole[]` (embedded as a sum). -/
def hasPermission (userRole : Option UserRole)
    (requiredRole : UserRole ⊕ List UserRole) : Bool :=
  match userRole with
  | none => false
  | some r =>
    if r = UserRole.admin then true
    else
      match requiredRole with
      | Sum.inr l => l.contains r
      | Sum.inl q => r = q

/-- Embedding of `canAccess(userRole, feature)` from `utils/permissions.ts`. -/
def canAccess (userRole : Option UserRole) (feature : String) : Bool :=
  match userRole with
  | none => false
  | some r =>
    if r = UserRole.admin then true
    else (featurePermissions feature).contains r

/-! ## Credential store (login backend)

The Rust implementation files `main/src/main.rs` and `main/src/db.rs` are
not among the sources; only the backend's setup guide (request/response
formats, database schema) and its test script are.  The store and the
`/search_user` handler are therefore modelled from the spec. -/

/-- The sole persistent entity: a row of the `users` table
(`username TEXT NOT NULL UNIQUE, password TEXT NOT NULL,
rank INTEGER NOT NULL, email TEXT NOT NULL`). -/
structure Account where
  username : String
  password : String
  rank : Nat
  email : String
deriving DecidableEq, Repr

/-- The credential store: the list of persisted accounts. -/
abbrev Store := List Account

/-- Modelled from the spec: `find_by_username(username) -> Option<Account>`
of the Credential Store — exact-match, case-sensitive lookup; absence is a
normal outcome represented as an empty result. -/
def find_by_username (s : Store) (u : String) : Option Account :=
  s.find? (fun a => a.username = u)

/-- The sanitized projection of an account returned on a successful
verification: `username`, `rank`, `email` — never the password. -/
structure SanitizedUser where
  username : String
  rank : Nat
  email : String
deriving DecidableEq, Repr

/-- Projection of an `Account` to its sanitized form. -/
def sanitize (a : Account) : SanitizedUser :=
  { username := a.username, rank := a.rank, email := a.email }

/-- The JSON body of a `/search_user` response:
`{"success": bool, "message": string, "data": {...} | null}`. -/
structure SearchResponse where
  success : Bool
  message : String
  data : Option SanitizedUser
deriving DecidableEq, Repr

/-- Modelled from the spec: `verify(username, password)` of the
Verification Service — look up the account by username; if absent, or if
present but the password does not match exactly, return `found = false`
with the generic message; if present and matching, return `found = true`
with the sanitized projection. -/
def verify (s : Store) (u p : String) : SearchResponse :=
  match find_by_username s u with
  | some a =>
    if a.password = p then
      { success := true, message := "User found", data := some (sanitize a) }
    else
      { success := false, message := "Invalid credentials", data := none }
  | none =>
    { success := false, message := "Invalid credentials", data := none }

/-- The error raised on inserting a duplicate username. -/
inductive InsertError where
  | DuplicateUsername
deriving DecidableEq, Repr

/-- Modelled from the spec: `insert(account)` of the Credential Store —
fails with `DuplicateUsername` if an account with the same username
exists (the `UNIQUE` constraint of the `users` schema); otherwise
persists the new row. -/
def insertAccount (s : Store) (a : Account) : Except InsertError Store :=
  if s.any (fun b => b.username = a.username) then
    Except.error InsertError.DuplicateUsername
  else
    Except.ok (s ++ [a])

/-- The default admin account of `tempData/defaultAdmin.jsonc`. -/
def defaultAdmin : Account :=
  { username := "admin", password := "admin123", rank := 1
    email := "admin@example.com" }

/-- Modelled from the spec: the seeding step of the Credential Store's
`initialize()` — insert the default account iff the table is empty. -/
def initializeStore (s : Store) : Store :=
  if s.isEmpty then [defaultAdmin] else s

/-! ## `/search_user` handler with storage failures

Modelled from the spec's failure semantics: storage failures surface as a
distinct 5xx-class outcome, never collapsed with invalid credentials. -/

/-- The storage-failure error of the spec's taxonomy. -/
inductive StorageFailure where
  | StoreUnavailable
deriving DecidableEq, Repr

/-- Modelled from the spec: the `/search_user` handler, given the outcome
of the storage lookup for the requested username — a storage failure
yields a 5xx-class response, while absence or a wrong password yields the
normal `found = false` JSON with status 200. -/
def handleSearchUser (r : Except StorageFailure (Option Account))
    (p : String) : Nat × SearchResponse :=
  match r with
  | Except.error _ =>
    (500, { success := false, message := "Storage unavailable", data := none })
  | Except.ok none =>
    (200, { success := false, message := "Invalid credentials", data := none })
  | Except.ok (some a) =>
    if a.password = p then
      (200, { success := true, message := "User found"
              data := some (sanitize a) })
    else
      (200, { success := false, message := "Invalid credentials", data := none })

/-! ## Gateway startup sequence

Modelled from the spec: `Credential Store.initialize()` → bind the
Verification Service listener → Companion Supervisor launch-and-await
ready → block serving; on any step's fatal failure, exit non-zero without
starting later steps. -/

/-- The startup steps of the Gateway Process, in their fixed order. -/
inductive Step where
  | initStore
  | bindListener
  | launchCompanion
  | serve
deriving DecidableEq, Repr

/-- Modelled from the spec: the Gateway Process startup.  Each `Bool`
says whether the corresponding step succeeds when attempted; the result
is the list of steps actually started, in order, and the process exit
code. -/
def gatewayStartup (initOk bindOk launchOk : Bool) : List Step × Nat :=
  if initOk = false then ([Step.initStore], 1)
  else if bindOk = false then ([Step.initStore, Step.bindListener], 1)
  else if launchOk = false then
    ([Step.initStore, Step.bindListener, Step.launchCompanion], 1)
  else
    ([Step.initStore, Step.bindListener, Step.launchCompanion, Step.serve], 0)

/-! ## Readiness polling (`setup-ollama` script)

From the source: `$maxRetries = 30`, probe with `-TimeoutSec 2`, on
success break with ready; otherwise `Start-Sleep -Seconds 2` and
increment the retry counter; before the loop, `Start-Sleep -Seconds 5`. -/

/-- One run of the polling loop from the remaining fuel
(`maxRetries - retryCount`).  `probes i` is whether the `i`-th probe
returns status 200; `dur i` is the time the `i`-th probe takes (bounded
by its timeout).  Returns `(ready, number of probes made, elapsed
time)`. -/
def pollFrom (probes : Nat → Bool) (dur : Nat → Nat) (interval : Nat) :
    Nat → Nat → Nat → Bool × Nat × Nat
  | 0, _, t => (false, 0, t)
  | fuel + 1, i, t =>
    if probes i then
      (true, 1, t + dur i)
    else
      let r := pollFrom probes dur interval fuel (i + 1) (t + dur i + interval)
      (r.1, r.2.1 + 1, r.2.2)

/-- The script's polling loop with its constants: initial delay 5 s,
at most 30 probes, 2 s sleep between probes. -/
def ollamaPoll (probes : Nat → Bool) (dur : Nat → Nat) : Bool × Nat × Nat :=
  pollFrom probes dur 2 30 0 5

/-! ## Shutdown cleanup (`run.ps1` finally block)

From the source: `Stop-Process -Id $proc.Id -Force`, then
`Get-Process | Where-Object { $_.Parent.Id -eq $proc.Id } | Stop-Process
-Force`. -/

/-- An entry of the OS process table: a process id and its parent's id. -/
structure Proc where
  pid : Nat
  parent : Nat
deriving DecidableEq, Repr

/-- The cleanup of the `run.ps1` `finally` block for one launched
process: force-stop the process itself, then force-stop every process
whose parent id equals its id.  Returns the process table afterwards. -/
def cleanupProcesses (t : List Proc) (root : Nat) : List Proc :=
  let afterRoot := t.filter (fun p => p.pid ≠ root)
  afterRoot.filter (fun p => p.parent ≠ root)

/-- Holds when `pid` was spawned, directly or transitively, by `root` according to
the process table `t`. -/
inductive SpawnedBy (t : List Proc) (root : Nat) : Nat → Prop where
  | direct {p : Proc} : p ∈ t → p.parent = root → SpawnedBy t root p.pid
  | indirect {p : Proc} : p ∈ t → SpawnedBy t root p.parent →
      SpawnedBy t root p.pid

/-! ## Tag normalization

From the source: the React `ArtifactModal` tag input does
`tagsStr.split(',').map(t => t.trim()).filter(t => t.length > 0)`; the
Rust Tauri command `normalize_tags` does
`input.split(',').map(|s| s.trim().to_lowercase()).filter(|s|
!s.is_empty()).collect()`. -/

/-- Split a character list at every comma, keeping empty pieces (the
semantics of both `String.prototype.split(',')` and Rust
`str::split(',')`). -/
def splitOnComma : List Char → List (List Char)
  | [] => [[]]
  | c :: cs =>
    if c = ',' then [] :: splitOnComma cs
    else
      match splitOnComma cs with
      | [] => [[c]]
      | piece :: rest => (c :: piece) :: rest

/-- The code points removed by JS `String.prototype.trim()`: the
ECMAScript WhiteSpace set (TAB U+0009, VT U+000B, FF U+000C, SP U+0020,
NBSP U+00A0, ZWNBSP U+FEFF and the Zs space separators U+1680,
U+2000..U+200A, U+202F, U+205F, U+3000) together with the LineTerminator
set (LF U+000A, CR U+000D, LS U+2028, PS U+2029). -/
def isJsWhitespaceNat (n : Nat) : Prop :=
  (9 ≤ n ∧ n ≤ 13) ∨ n = 32 ∨ n = 160 ∨ n = 5760 ∨
  (8192 ≤ n ∧ n ≤ 8202) ∨ n = 8232 ∨ n = 8233 ∨ n = 8239 ∨ n = 8287 ∨
  n = 12288 ∨ n = 65279

instance (n : Nat) : Decidable (isJsWhitespaceNat n) := by
  unfold isJsWhitespaceNat
  infer_instance

/-- Whether a character is trimmed by JS `String.prototype.trim()`. -/
def jsWhitespace (c : Char) : Bool :=
  decide (isJsWhitespaceNat c.toNat)

/-- The code points with the Unicode `White_Space` property — the set
removed by Rust `str::trim` (`char::is_whitespace`): U+0009..U+000D,
SP U+0020, NEL U+0085, NBSP U+00A0, U+1680, U+2000..U+200A, LS U+2028,
PS U+2029, U+202F, U+205F, U+3000.  Unlike the JS set it contains
U+0085 and not U+FEFF. -/
def isRustWhitespaceNat (n : Nat) : Prop :=
  (9 ≤ n ∧ n ≤ 13) ∨ n = 32 ∨ n = 133 ∨ n = 160 ∨ n = 5760 ∨
  (8192 ≤ n ∧ n ≤ 8202) ∨ n = 8232 ∨ n = 8233 ∨ n = 8239 ∨ n = 8287 ∨
  n = 12288

instance (n : Nat) : Decidable (isRustWhitespaceNat n) := by
  unfold isRustWhitespaceNat
  infer_instance

/-- Whether a character is trimmed by Rust `str::trim`. -/
def rustWhitespace (c : Char) : Bool :=
  decide (isRustWhitespaceNat c.toNat)

/-- Trim the leading and trailing characters satisfying `p` (the shape
shared by JS `trim()` and Rust `str::trim`, each with its own whitespace
predicate). -/
def trimWith (p : Char → Bool) (s : List Char) : List Char :=
  (((s.dropWhile p).reverse).dropWhile p).reverse

/-- Character-wise ASCII lowercasing.  It agrees with Rust
`str::to_lowercase` on ASCII strings and serves to instantiate the
abstract lowercasing parameter below; it does not model the full Unicode
behaviour. -/
def toLowerChars (s : List Char) : List Char :=
  s.map Char.toLower

/-- The React tag-input parser of `ArtifactModal.tsx`:
`split(',') . map (t => t.trim()) . filter (t => t.length > 0)`, with
`trim()` removing exactly the ECMAScript whitespace set. -/
def reactParseTags (s : List Char) : List (List Char) :=
  ((splitOnComma s).map (trimWith jsWhitespace)).filter
    (fun t => t.length > 0)

/-- The Rust Tauri command `normalize_tags`:
`split(',') . map (s => s.trim().to_lowercase()) . filter (not is_empty)`,
parameterized by the string-lowercasing function `low` standing for
`str::to_lowercase`, whose full context-sensitive Unicode case-mapping
tables are not reproduced here.  The theorems assume of `low` only
properties documented of `str::to_lowercase`: it yields the empty string
exactly on the empty string, and it keeps whitespace-free edges
whitespace-free (Unicode case mappings never produce whitespace). -/
def normalize_tags (low : List Char → List Char) (s : List Char) :
    List (List Char) :=
  ((splitOnComma s).map (fun piece => low (trimWith rustWhitespace piece))).filter
    (fun t => !t.isEmpty)

/-- The tags of the Rust pipeline before the lowercasing step:
`split(',') . map (s => s.trim()) . filter (not is_empty)` with the Rust
whitespace set.  Used only to state that `normalize_tags` is this parse
followed by lowercasing every tag. -/
def rustTrimTags (s : List Char) : List (List Char) :=
  ((splitOnComma s).map (trimWith rustWhitespace)).filter
    (fun t => !t.isEmpty)

/-! ## Helper lemmas -/

theorem find_by_username_of_mem {s : Store} {a : Account}
    (hnd : (s.map Account.username).Nodup) (ha : a ∈ s) :
    find_by_username s a.username = some a := by
  induction s with
  | nil => cases ha
  | cons b t ih =>
    have hnd' : (b.username :: t.map Account.username).Nodup := by
      simpa using hnd
    rcases List.mem_cons.mp ha with rfl | hat
    · exact List.find?_cons_of_pos _ (by simp)
    · have hbu : b.username ∉ t.map Account.username := (List.nodup_cons.mp hnd').1
      have hne : ¬ (b.username = a.username) := fun he =>
        hbu (he ▸ List.mem_map_of_mem Account.username hat)
      rw [find_by_username, List.find?_cons_of_neg _ (by simpa using hne)]
      exact ih (List.nodup_cons.mp hnd').2 hat

theorem find_by_username_eq_none {s : Store} {u : String}
    (hu : ∀ b ∈ s, b.username ≠ u) : find_by_username s u = none := by
  rw [find_by_username, List.find?_eq_none]
  intro b hb
  simpa using hu b hb

/-! ## Claims -/

/-- C1: for every account `(u, p)` in the store, `verify(u, p)` returns
`found = true` with the sanitized projection of that account;
`verify(u, p')` for `p' ≠ p` returns `found = false`; and
`verify(u', anything)` for an unknown `u'` returns `found = false` with
exactly the same generic response as the wrong-password case, so the two
failure causes are indistinguishable. -/
theorem C1_verify_contract (s : Store) (a : Account)
    (hnd : (s.map Account.username).Nodup) (ha : a ∈ s) :
    verify s a.username a.password =
      { success := true, message := "User found", data := some (sanitize a) } ∧
    (∀ p', p' ≠ a.password →
      verify s a.username p' =
        { success := false, message := "Invalid credentials", data := none }) ∧
    (∀ u' x, (∀ b ∈ s, b.username ≠ u') →
      verify s u' x =
        { success := false, message := "Invalid credentials", data := none }) := by
  have hf := find_by_username_of_mem hnd ha
  refine ⟨?_, ?_, ?_⟩
  · rw [verify, hf]
    simp
  · intro p' hp'
    rw [verify, hf]
    have hne : ¬ a.password = p' := fun he => hp' he.symm
    simp [hne]
  · intro u' x hu'
    rw [verify, find_by_username_eq_none hu']

/-- Witness for C1 at the seeded store. -/
theorem C1_witness :
    verify [defaultAdmin] "admin" "admin123" =
      { success := true, message := "User found"
        data := some (sanitize defaultAdmin) } ∧
    verify [defaultAdmin] "admin" "wrong" =
      { success := false, message := "Invalid credentials", data := none } ∧
    verify [defaultAdmin] "ghost" "whatever" =
      { success := false, message := "Invalid credentials", data := none } := by
  have h := C1_verify_contract [defaultAdmin] defaultAdmin (by decide) (by decide)
  exact ⟨h.1, h.2.1 "wrong" (by decide), h.2.2 "ghost" "whatever" (by decide)⟩

/-- C2: usernames are unique — inserting into a store free of username `u`
succeeds, a second insert of the same username fails with
`DuplicateUsername`, the existing account is not overwritten, and exactly
one row with that username remains. -/
theorem C2_username_uniqueness (s : Store) (a1 a2 : Account) (u : String)
    (h1 : a1.username = u) (h2 : a2.username = u)
    (hs : ∀ b ∈ s, b.username ≠ u) :
    insertAccount s a1 = Except.ok (s ++ [a1]) ∧
    insertAccount (s ++ [a1]) a2 = Except.error InsertError.DuplicateUsername ∧
    find_by_username (s ++ [a1]) u = some a1 ∧
    ((s ++ [a1]).filter (fun b => b.username = u)).length = 1 := by
  refine ⟨?_, ?_, ?_, ?_⟩
  · have hnone : s.any (fun b => b.username = a1.username) = false := by
      simp only [List.any_eq_false]
      intro b hb
      simpa [h1] using hs b hb
    simp [insertAccount, hnone]
  · have hsome : (s ++ [a1]).any (fun b => b.username = a2.username) = true := by
      simp only [List.any_eq_true]
      exact ⟨a1, by simp, by simp [h1, h2]⟩
    simp [insertAccount, hsome]
  · have hnone := find_by_username_eq_none hs
    simp only [find_by_username] at hnone ⊢
    rw [List.find?_append, hnone]
    simp [h1]
  · rw [List.filter_append]
    have hnil : s.filter (fun b => decide (b.username = u)) = [] := by
      rw [List.filter_eq_nil_iff]
      intro b hb
      simpa using hs b hb
    simp [hnil, h1]

/-- Witness for C2 on the empty store and the default admin username. -/
theorem C2_witness :
    insertAccount [] defaultAdmin = Except.ok [defaultAdmin] ∧
    insertAccount [defaultAdmin]
        { username := "admin", password := "other", rank := 2, email := "e" } =
      Except.error InsertError.DuplicateUsername ∧
    find_by_username [defaultAdmin] "admin" = some defaultAdmin ∧
    ([defaultAdmin].filter (fun b => b.username = "admin")).length = 1 := by
  have h := C2_username_uniqueness [] defaultAdmin
      { username := "admin", password := "other", rank := 2, email := "e" }
      "admin" rfl rfl (by intro b hb; cases hb)
  simpa using h

/-- C3: seeding is idempotent — any positive number of `initialize()` runs
starting from the empty store leaves exactly the one default account,
neither duplicated nor altered. -/
theorem C3_seeding_idempotent :
    ∀ n : Nat, initializeStore^[n + 1] ([] : Store) = [defaultAdmin] := by
  intro n
  induction n with
  | zero => rfl
  | succ k ih =>
    rw [Function.iterate_succ_apply', ih]
    rfl

/-- C9: the `admin` role is granted every permission by both
`canAccess` and `hasPermission`, and an undefined user role is granted
nothing by either. -/
theorem C9_admin_all_undefined_none :
    (∀ feature : String, canAccess (some UserRole.admin) feature = true) ∧
    (∀ rr : UserRole ⊕ List UserRole,
      hasPermission (some UserRole.admin) rr = true) ∧
    (∀ feature : String, canAccess none feature = false) ∧
    (∀ rr : UserRole ⊕ List UserRole, hasPermission none rr = false) := by
  refine ⟨fun f => ?_, fun rr => ?_, fun f => rfl, fun rr => rfl⟩
  · simp [canAccess]
  · simp [hasPermission]

/-- C6: the `data` field of any verification response is either `null` or
the sanitized projection of a stored account, and the sanitized
projection is independent of the stored password; a failed response
always carries `data = null`. -/
theorem C6_no_password_in_data :
    (∀ (s : Store) (u p : String),
      ((verify s u p).success = true ∧
        ∃ a, a ∈ s ∧ (verify s u p).data = some (sanitize a)) ∨
      ((verify s u p).success = false ∧ (verify s u p).data = none)) ∧
    (∀ (a : Account) (pw : String),
      sanitize { a with password := pw } = sanitize a) := by
  constructor
  · intro s u p
    rcases hf : find_by_username s u with _ | a
    · right
      rw [verify, hf]
      exact ⟨rfl, rfl⟩
    · have hmem : a ∈ s := by
        rw [find_by_username] at hf
        exact List.mem_of_find?_eq_some hf
      by_cases hpw : a.password = p
      · left
        rw [verify, hf]
        simp only [hpw, if_pos rfl]
        exact ⟨rfl, a, hmem, rfl⟩
      · right
        rw [verify, hf]
        simp [hpw]
  · intro a pw
    rfl

/-- C7: a storage failure during verification yields a 5xx-class response
distinct from the invalid-credentials outcome; every outcome yields a
well-formed response, invalid credentials yield the normal
`found = false` body with status 200, and the status is 500 exactly when
the storage lookup failed. -/
theorem C7_storage_failure_distinct (a : Account) (p : String)
    (hp : ¬ a.password = p) :
    (∀ r q, (handleSearchUser r q).1 = 200 ∨ (handleSearchUser r q).1 = 500) ∧
    (∀ q, handleSearchUser (Except.ok none) q =
      (200, { success := false, message := "Invalid credentials", data := none })) ∧
    handleSearchUser (Except.ok (some a)) p =
      (200, { success := false, message := "Invalid credentials", data := none }) ∧
    (∀ f q, handleSearchUser (Except.error f) q =
      (500, { success := false, message := "Storage unavailable", data := none })) ∧
    (∀ r q, (handleSearchUser r q).1 = 500 ↔ ∃ f, r = Except.error f) := by
  refine ⟨?_, fun q => rfl, ?_, fun f q => rfl, ?_⟩
  · intro r q
    rcases r with f | op
    · right; rfl
    · rcases op with _ | b
      · left; rfl
      · simp only [handleSearchUser]
        split
        · left; rfl
        · left; rfl
  · simp [handleSearchUser, hp]
  · intro r q
    constructor
    · intro h
      rcases r with f | op
      · exact ⟨f, rfl⟩
      · exfalso
        rcases op with _ | b
        · simp [handleSearchUser] at h
        · simp only [handleSearchUser] at h
          split at h <;> simp at h
    · rintro ⟨f, rfl⟩
      rfl

/-- Witness for C7 at the default admin account and a wrong password. -/
theorem C7_witness :
    handleSearchUser (Except.ok (some defaultAdmin)) "wrong" =
      (200, { success := false, message := "Invalid credentials", data := none }) ∧
    handleSearchUser (Except.error StorageFailure.StoreUnavailable) "wrong" =
      (500, { success := false, message := "Storage unavailable", data := none }) := by
  have h := C7_storage_failure_distinct defaultAdmin "wrong" (by decide)
  exact ⟨h.2.2.1, h.2.2.2.1 StorageFailure.StoreUnavailable "wrong"⟩

/-- C8: the Gateway starts its steps in the fixed order store-init,
bind-listener, launch-companion, serve; the executed steps are always an
initial segment of that order; any step's failure yields a non-zero exit
with no later step started; in particular it never serves after a failed
store initialization, and the exit code is zero exactly when every step
succeeds. -/
theorem C8_startup_sequence :
    (∀ i b l, ∃ k, (gatewayStartup i b l).1 =
      [Step.initStore, Step.bindListener, Step.launchCompanion,
        Step.serve].take k) ∧
    (∀ b l, gatewayStartup false b l = ([Step.initStore], 1)) ∧
    (∀ l, gatewayStartup true false l =
      ([Step.initStore, Step.bindListener], 1)) ∧
    gatewayStartup true true false =
      ([Step.initStore, Step.bindListener, Step.launchCompanion], 1) ∧
    gatewayStartup true true true =
      ([Step.initStore, Step.bindListener, Step.launchCompanion, Step.serve],
        0) ∧
    (∀ b l, ((gatewayStartup false b l).1.contains Step.serve) = false) ∧
    (∀ i b l, ((gatewayStartup i b l).2 = 0) ↔
      (i = true ∧ b = true ∧ l = true)) := by
  refine ⟨?_, ?_, ?_, rfl, rfl, ?_, ?_⟩
  · intro i b l
    cases i <;> cases b <;> cases l
    exacts [⟨1, rfl⟩, ⟨1, rfl⟩, ⟨1, rfl⟩, ⟨1, rfl⟩, ⟨2, rfl⟩, ⟨2, rfl⟩,
      ⟨3, rfl⟩, ⟨4, rfl⟩]
  · intro b l
    cases b <;> cases l <;> rfl
  · intro l
    cases l <;> rfl
  · intro b l
    cases b <;> cases l <;> rfl
  · intro i b l
    cases i <;> cases b <;> cases l <;> decide

/-! Readiness-polling lemmas. -/

theorem pollFrom_probes_le (probes : Nat → Bool) (dur : Nat → Nat)
    (interval : Nat) :
    ∀ fuel i t, (pollFrom probes dur interval fuel i t).2.1 ≤ fuel := by
  intro fuel
  induction fuel with
  | zero => intro i t; exact Nat.le_refl 0
  | succ k ih =>
    intro i t
    simp only [pollFrom]
    split
    · exact Nat.succ_le_succ (Nat.zero_le k)
    · exact Nat.succ_le_succ (ih (i + 1) (t + dur i + interval))

theorem pollFrom_fail (probes : Nat → Bool) (dur : Nat → Nat)
    (interval : Nat) (hfail : ∀ i, probes i = false) :
    ∀ fuel i t, (pollFrom probes dur interval fuel i t).1 = false ∧
      (pollFrom probes dur interval fuel i t).2.1 = fuel := by
  intro fuel
  induction fuel with
  | zero => intro i t; exact ⟨rfl, rfl⟩
  | succ k ih =>
    intro i t
    simp only [pollFrom, hfail i, Bool.false_eq_true, if_false]
    exact ⟨(ih _ _).1, by rw [(ih _ _).2]⟩

theorem pollFrom_elapsed_le (probes : Nat → Bool) (dur : Nat → Nat)
    (interval D : Nat) (hdur : ∀ i, dur i ≤ D) :
    ∀ fuel i t, (pollFrom probes dur interval fuel i t).2.2 ≤
      t + fuel * (D + interval) := by
  intro fuel
  induction fuel with
  | zero => intro i t; simp [pollFrom]
  | succ k ih =>
    intro i t
    simp only [pollFrom]
    split
    · have h1 : dur i ≤ D := hdur i
      have h2 : D + interval ≤ (k + 1) * (D + interval) := by
        have := Nat.mul_le_mul_right (D + interval)
          (Nat.succ_le_succ (Nat.zero_le k))
        simpa using this
      have h3 : dur i ≤ (k + 1) * (D + interval) :=
        Nat.le_trans (Nat.le_trans h1 (Nat.le_add_right D interval)) h2
      exact Nat.add_le_add_left h3 t
    · have hstep := ih (i + 1) (t + dur i + interval)
      have h1 : t + dur i + interval ≤ t + (D + interval) := by
        have := hdur i
        omega
      calc (pollFrom probes dur interval k (i + 1)
              (t + dur i + interval)).2.2
          ≤ t + dur i + interval + k * (D + interval) := hstep
        _ ≤ t + (D + interval) + k * (D + interval) :=
            Nat.add_le_add_right h1 (k * (D + interval))
        _ = t + (k + 1) * (D + interval) := by ring

/-- C4: if the dependent never becomes ready, the polling loop of the
setup script makes at most 30 probes (and never more than 30 for any
probe outcomes), terminates in the failed state, and — with every probe
bounded by its 2-second timeout — does so within `30 × 2` seconds plus a
bounded epsilon (the initial 5-second delay plus the probe timeouts). -/
theorem C4_polling_bound (probes prb : Nat → Bool) (dur : Nat → Nat)
    (hdur : ∀ i, dur i ≤ 2) (hfail : ∀ i, probes i = false) :
    (ollamaPoll prb dur).2.1 ≤ 30 ∧
    (ollamaPoll probes dur).1 = false ∧
    (ollamaPoll probes dur).2.1 = 30 ∧
    (ollamaPoll probes dur).2.2 ≤ 30 * 2 + 65 := by
  refine ⟨pollFrom_probes_le prb dur 2 30 0 5,
    (pollFrom_fail probes dur 2 hfail 30 0 5).1,
    (pollFrom_fail probes dur 2 hfail 30 0 5).2, ?_⟩
  have h := pollFrom_elapsed_le probes dur 2 2 hdur 30 0 5
  simp only [ollamaPoll]
  omega

/-- Witness for C4 with all probes failing and each probe taking its full
2-second timeout. -/
theorem C4_witness :
    (ollamaPoll (fun _ => true) (fun _ => 2)).2.1 ≤ 30 ∧
    (ollamaPoll (fun _ => false) (fun _ => 2)).1 = false ∧
    (ollamaPoll (fun _ => false) (fun _ => 2)).2.1 = 30 ∧
    (ollamaPoll (fun _ => false) (fun _ => 2)).2.2 ≤ 30 * 2 + 65 :=
  C4_polling_bound (fun _ => false) (fun _ => true) (fun _ => 2)
    (fun _ => Nat.le_refl 2) (fun _ => rfl)

/-- The process table on which the cleanup leaks a grandchild: the
launched process (pid 1) spawned pid 2, which itself spawned pid 3. -/
def leakTable : List Proc :=
  [{ pid := 1, parent := 0 }, { pid := 2, parent := 1 },
    { pid := 3, parent := 2 }]

/-- C5 (claim refuted on the code): the `run.ps1` cleanup stops only the
launched process and its direct children, so the transitively spawned
grandchild pid 3 survives shutdown — contradicting the claim that no
process spawned directly or transitively by the dependent remains. -/
theorem C5_cleanup_leaks_grandchild :
    cleanupProcesses leakTable 1 = [{ pid := 3, parent := 2 }] ∧
    SpawnedBy leakTable 1 3 ∧
    ∃ q, q ∈ cleanupProcesses leakTable 1 ∧ SpawnedBy leakTable 1 q.pid := by
  have h3 : SpawnedBy leakTable 1 3 := by
    have h2 : SpawnedBy leakTable 1 2 :=
      SpawnedBy.direct (p := { pid := 2, parent := 1 }) (by decide) rfl
    exact SpawnedBy.indirect (p := { pid := 3, parent := 2 }) (by decide) h2
  exact ⟨by decide, h3, { pid := 3, parent := 2 }, by decide, h3⟩

/-! Character and list lemmas for trimming and lowercasing. -/

theorem toNat_ofNat_of_valid {n : Nat} (h : n.isValidChar) :
    (Char.ofNat n).toNat = n := by
  rw [Char.ofNat, dif_pos h]
  rfl

theorem rustWhitespace_toLower (c : Char) :
    rustWhitespace (Char.toLower c) = rustWhitespace c := by
  simp only [Char.toLower]
  split
  · rename_i h
    have hval : (c.toNat + 32).isValidChar := Or.inl (by omega)
    have h1 : ¬ isRustWhitespaceNat (c.toNat + 32) := by
      unfold isRustWhitespaceNat
      omega
    have h2 : ¬ isRustWhitespaceNat c.toNat := by
      unfold isRustWhitespaceNat
      omega
    simp only [rustWhitespace, toNat_ofNat_of_valid hval]
    rw [decide_eq_false h1, decide_eq_false h2]
  · rfl

theorem head?_dropWhile_not (p : Char → Bool) :
    ∀ (l : List Char) (c : Char),
      (l.dropWhile p).head? = some c → p c = false := by
  intro l
  induction l with
  | nil => intro c h; cases h
  | cons b t ih =>
    intro c h
    by_cases hb : p b
    · rw [List.dropWhile_cons_of_pos hb] at h
      exact ih c h
    · rw [List.dropWhile_cons_of_neg hb, List.head?_cons] at h
      injection h with h'
      subst h'
      exact Bool.eq_false_iff.mpr hb

theorem getLast?_dropWhile (p : Char → Bool) :
    ∀ l : List Char, l.dropWhile p ≠ [] →
      (l.dropWhile p).getLast? = l.getLast? := by
  intro l
  induction l with
  | nil => intro h; simp [List.dropWhile_nil] at h
  | cons b t ih =>
    intro h
    by_cases hb : p b
    · rw [List.dropWhile_cons_of_pos hb] at h ⊢
      rw [ih h]
      have ht : t ≠ [] := by
        intro he
        rw [he] at h
        simp [List.dropWhile_nil] at h
      cases t with
      | nil => exact absurd rfl ht
      | cons x xs => rw [List.getLast?_cons_cons]
    · rw [List.dropWhile_cons_of_neg hb]

theorem trimWith_head_not (p : Char → Bool) (s : List Char) (c : Char)
    (h : (trimWith p s).head? = some c) : p c = false := by
  unfold trimWith at h
  rw [List.head?_reverse] at h
  have hne : ((s.dropWhile p).reverse).dropWhile p ≠ [] := by
    intro he
    rw [he] at h
    cases h
  rw [getLast?_dropWhile _ _ hne, List.getLast?_reverse] at h
  exact head?_dropWhile_not _ _ _ h

theorem trimWith_getLast_not (p : Char → Bool) (s : List Char) (c : Char)
    (h : (trimWith p s).getLast? = some c) : p c = false := by
  unfold trimWith at h
  rw [List.getLast?_reverse] at h
  exact head?_dropWhile_not _ _ _ h

theorem mem_reactParseTags {s t : List Char} (h : t ∈ reactParseTags s) :
    (∃ piece, t = trimWith jsWhitespace piece) ∧ t ≠ [] := by
  unfold reactParseTags at h
  rcases List.mem_filter.mp h with ⟨hm, hlen⟩
  rcases List.mem_map.mp hm with ⟨piece, _, rfl⟩
  refine ⟨⟨piece, rfl⟩, ?_⟩
  intro he
  rw [he] at hlen
  simp at hlen

theorem mem_normalize_tags {low : List Char → List Char} {s t : List Char}
    (h : t ∈ normalize_tags low s) :
    (∃ piece, t = low (trimWith rustWhitespace piece)) ∧ t ≠ [] := by
  unfold normalize_tags at h
  rcases List.mem_filter.mp h with ⟨hm, hne⟩
  rcases List.mem_map.mp hm with ⟨piece, _, rfl⟩
  refine ⟨⟨piece, rfl⟩, ?_⟩
  intro he
  rw [he] at hne
  simp at hne

theorem toLowerChars_empty_iff (t : List Char) :
    toLowerChars t = [] ↔ t = [] := by
  cases t <;> simp [toLowerChars]

theorem toLowerChars_edges (t : List Char)
    (h1 : ∀ c, t.head? = some c → rustWhitespace c = false)
    (h2 : ∀ c, t.getLast? = some c → rustWhitespace c = false) :
    (∀ c, (toLowerChars t).head? = some c → rustWhitespace c = false) ∧
    (∀ c, (toLowerChars t).getLast? = some c → rustWhitespace c = false) := by
  constructor
  · intro c hc
    rw [toLowerChars, List.head?_map] at hc
    rcases hm : t.head? with _ | c'
    · rw [hm] at hc; cases hc
    · rw [hm] at hc
      injection hc with hc'
      rw [← hc', rustWhitespace_toLower]
      exact h1 c' hm
  · intro c hc
    rw [toLowerChars, List.getLast?_map] at hc
    rcases hm : t.getLast? with _ | c'
    · rw [hm] at hc; cases hc
    · rw [hm] at hc
      injection hc with hc'
      rw [← hc', rustWhitespace_toLower]
      exact h2 c' hm

/-- C10: with any lowercasing function having the documented properties
of `str::to_lowercase` (the empty string exactly on the empty string,
whitespace-free edges kept whitespace-free), both tag parsers yield only
non-empty tags with no leading or trailing whitespace — each with
respect to its own language's whitespace set — for every input
including the empty string; `normalize_tags` is exactly the trim parse
followed by lowercasing every tag, whereas the React editor applies no
lowercasing (an upper-case tag passes through unchanged). -/
theorem C10_tag_normalization (low : List Char → List Char)
    (hle : ∀ t, low t = [] ↔ t = [])
    (hlw : ∀ t, (∀ c, t.head? = some c → rustWhitespace c = false) →
      (∀ c, t.getLast? = some c → rustWhitespace c = false) →
      (∀ c, (low t).head? = some c → rustWhitespace c = false) ∧
      (∀ c, (low t).getLast? = some c → rustWhitespace c = false)) :
    (∀ s t, t ∈ reactParseTags s → t ≠ [] ∧
      (∀ c, t.head? = some c → jsWhitespace c = false) ∧
      (∀ c, t.getLast? = some c → jsWhitespace c = false)) ∧
    (∀ s t, t ∈ normalize_tags low s → t ≠ [] ∧
      (∀ c, t.head? = some c → rustWhitespace c = false) ∧
      (∀ c, t.getLast? = some c → rustWhitespace c = false)) ∧
    (∀ s, normalize_tags low s = (rustTrimTags s).map low) ∧
    reactParseTags ['A'] = [['A']] := by
  refine ⟨?_, ?_, ?_, by decide⟩
  · intro s t h
    rcases mem_reactParseTags h with ⟨⟨piece, rfl⟩, hne⟩
    exact ⟨hne, fun c hc => trimWith_head_not _ piece c hc,
      fun c hc => trimWith_getLast_not _ piece c hc⟩
  · intro s t h
    rcases mem_normalize_tags h with ⟨⟨piece, rfl⟩, hne⟩
    have he := hlw (trimWith rustWhitespace piece)
      (fun c hc => trimWith_head_not _ piece c hc)
      (fun c hc => trimWith_getLast_not _ piece c hc)
    exact ⟨hne, he.1, he.2⟩
  · intro s
    unfold normalize_tags rustTrimTags
    have hmm : (splitOnComma s).map
        (fun piece => low (trimWith rustWhitespace piece))
        = ((splitOnComma s).map (trimWith rustWhitespace)).map low := by
      rw [List.map_map]
      rfl
    rw [hmm, List.filter_map]
    congr 1
    apply List.filter_congr
    intro a _
    have hiff : (low a).isEmpty = a.isEmpty := by
      by_cases ha : a = []
      · subst ha
        rw [(hle []).mpr rfl]
      · have hlne : low a ≠ [] := fun hx => ha ((hle a).mp hx)
        rcases hla : low a with _ | ⟨x, xs⟩
        · exact absurd hla hlne
        · rcases a with _ | ⟨y, ys⟩
          · exact absurd rfl ha
          · rfl
    simp only [Function.comp]
    rw [hiff]

/-- Witness for C10: the ASCII lowercasing instantiation (which is what
`str::to_lowercase` does on the ASCII input used here) on the input
`" A "` for both parsers. -/
theorem C10_witness :
    (['A'] : List Char) ≠ [] ∧ (['a'] : List Char) ≠ [] ∧
    reactParseTags [' ', 'A', ' '] = [['A']] ∧
    normalize_tags toLowerChars [' ', 'A', ' '] = [['a']] := by
  have h := C10_tag_normalization toLowerChars toLowerChars_empty_iff
    toLowerChars_edges
  exact ⟨(h.1 [' ', 'A', ' '] ['A'] (by decide)).1,
    (h.2.1 [' ', 'A', ' '] ['a'] (by decide)).1, by decide, by decide⟩

end FllProject
